import Mathlib

/-!
Verification of the Swift-test-log-to-JUnit-XML converter
(`src/scripts/swift-test-to-junit.py`) and of the SwiftLint console
reporter (`src/scripts/format_swiftlint_sonar.py`).

The converter is a line-by-line state machine (`SwiftTestParser.parse_line`)
over an implicit cursor (`current_suite`, `current_test`) plus a list of
finalized test records, followed by a JUnit XML builder
(`generate_junit_xml`).  We embed it shallowly:

* A log line is represented by its classification under the script's six
  regular expressions, carried as an inductive `Line` with the captured
  groups as payloads (a line matching none of the patterns is
  `Line.other`).  The Python code tests the patterns in a fixed order and
  every branch after the first two is additionally guarded by
  `self.current_test`; when no case is open all of those guarded branches
  are no-ops, so representing each line by its first matching pattern is
  faithful to the fall-through behaviour of the chain of `if` statements.
* Durations are idealized as rationals.  Python's `float(...)` call on a
  captured group is modelled by `pyFloat`, a parser for plain decimal
  literals (optional sign, digits, optional fractional part); on any other
  string it returns `none`, matching `float` raising `ValueError`, which
  `parse_line` propagates (embedded as `Except.error`).
* `datetime.now()` is not modelled; the start timestamp is threaded as an
  opaque string parameter.
* XML elements built with `xml.etree.ElementTree` are modelled by the
  `Xml` inductive: tag, attributes in insertion order, optional text,
  children in insertion order.
-/

namespace SwiftTestToJunit

/-- One test record, the dict literal built at case start in `parse_line`
(keys `classname`, `name`, `time`, `status`, `message`, `error_type`).
`time` is a rational (idealized float), `status` is one of the strings
`"passed"`, `"failed"`, `"skipped"` exactly as in the Python source. -/
structure TestRecord where
  classname : String
  name : String
  time : ℚ
  status : String
  message : Option String
  error_type : Option String
deriving DecidableEq, Repr

/-- The mutable state of `SwiftTestParser`: `test_results`,
`current_suite`, `current_test` (the `start_time` field is threaded
separately as a string parameter to the XML builder). -/
structure ParserState where
  test_results : List TestRecord
  current_suite : Option String
  current_test : Option TestRecord
deriving DecidableEq, Repr

/-- State after `SwiftTestParser.__init__`. -/
def initState : ParserState :=
  { test_results := [], current_suite := none, current_test := none }

/-- A log line, represented by which of the six regular expressions of
`parse_line` first matches it, together with the captured groups:
suite start, case start, case passed, case failed, error detail
(`<file>:<line>: error: <context> : <detail>`), skip, or no match. -/
inductive Line where
  | suiteStarted (name : String)
  | caseStarted (classname name : String)
  | casePassed (seconds : String)
  | caseFailed (seconds : String)
  | errorDetail (file lineNo context detail : String)
  | skipped
  | other (raw : String)
deriving DecidableEq, Repr

/-- Numeric value of a list of decimal digit characters. -/
def digitsVal (ds : List Char) : Nat :=
  ds.foldl (fun a c => 10 * a + (c.toNat - 48)) 0

/-- Decimal literal parser on a sign-stripped character list: digits with
an optional fractional part (`"7"`, `"0.01"`, `"1."`, `".5"`). -/
def parseUnsigned (cs : List Char) : Option ℚ :=
  let intPart := cs.takeWhile Char.isDigit
  let rest := cs.dropWhile Char.isDigit
  match rest with
  | [] => if intPart.isEmpty then none else some ((digitsVal intPart : ℚ))
  | '.' :: frac =>
      if frac.all Char.isDigit && (!intPart.isEmpty || !frac.isEmpty) then
        some ((digitsVal intPart : ℚ) + (digitsVal frac : ℚ) / (10 ^ frac.length))
      else none
  | _ => none

/-- Model of Python's `float(s)` on the captured seconds payload: `some`
of the value for a plain decimal literal with optional sign, `none` where
`float` raises `ValueError`.  (Exotic accepted forms of Python `float`
such as exponents, `inf` or surrounding whitespace are outside the model;
no theorem depends on them.) -/
def pyFloat (s : String) : Option ℚ :=
  match s.data with
  | '-' :: rest => (parseUnsigned rest).map (fun q => -q)
  | '+' :: rest => parseUnsigned rest
  | cs => parseUnsigned cs

/-- The fresh record dict built by the case-start branch of `parse_line`. -/
def freshTest (classname name : String) : TestRecord :=
  { classname := classname, name := name, time := 0, status := "passed",
    message := none, error_type := none }

/-- `SwiftTestParser.parse_line`, one transition of the parser state.
Branches guarded by `self.current_test` are no-ops when no case is open;
a `float` conversion failure on the seconds payload is `Except.error`. -/
def parse_line (st : ParserState) (l : Line) : Except String ParserState :=
  match l with
  | .suiteStarted name => .ok { st with current_suite := some name }
  | .caseStarted classname name =>
      .ok { st with current_test := some (freshTest classname name) }
  | .casePassed seconds =>
      match st.current_test with
      | some t =>
          match pyFloat seconds with
          | some q =>
              let t' := { t with time := q }
              .ok { st with test_results := st.test_results ++ [t'], current_test := none }
          | none => .error ("could not convert string to float: " ++ seconds)
      | none => .ok st
  | .caseFailed seconds =>
      match st.current_test with
      | some t =>
          match pyFloat seconds with
          | some q =>
              let t' := { t with time := q, status := "failed" }
              .ok { st with test_results := st.test_results ++ [t'], current_test := none }
          | none => .error ("could not convert string to float: " ++ seconds)
      | none => .ok st
  | .errorDetail file lineNo _context detail =>
      match st.current_test with
      | some t =>
          let msg := detail ++ " at " ++ file ++ ":" ++ lineNo
          let t' := { t with error_type := some "XCTAssertionFailure", message := some msg }
          .ok { st with current_test := some t' }
      | none => .ok st
  | .skipped =>
      match st.current_test with
      | some t =>
          let t' := { t with status := "skipped" }
          .ok { st with test_results := st.test_results ++ [t'], current_test := none }
      | none => .ok st
  | .other _ => .ok st

/-- The stdin loop of `main`: feed lines to `parse_line` in order,
propagating a raised `ValueError`. -/
def parseLines (st : ParserState) : List Line → Except String ParserState
  | [] => .ok st
  | l :: ls =>
      match parse_line st l with
      | .ok st' => parseLines st' ls
      | .error e => .error e

/-- One whole parse run from the freshly initialized parser. -/
def parseRun (ls : List Line) : Except String ParserState :=
  parseLines initState ls

/-- An `xml.etree.ElementTree` element: tag, attributes in insertion
order, optional text, children in insertion order. -/
inductive Xml where
  | elem (tag : String) (attrs : List (String × String)) (text : Option String)
      (children : List Xml)

/-- Attribute lookup on an element (attribute keys are set at most once
per element in this program). -/
def Xml.attr : Xml → String → Option String
  | .elem _ attrs _ _, k => (attrs.find? (fun p => p.1 == k)).map (fun p => p.2)

/-- The child elements of an element. -/
def Xml.children : Xml → List Xml
  | .elem _ _ _ cs => cs

/-- Python truthiness-based `a or d` on an optional string (`None` and
`""` are falsy). -/
def pyOrStr (v : Option String) (d : String) : String :=
  match v with
  | some s => if s = "" then d else s
  | none => d

/-- Python `if s:` on an optional string: keep it only when truthy. -/
def pyTruthy (v : Option String) : Option String :=
  match v with
  | some s => if s = "" then none else some s
  | none => none

/-- Model of Python `str(...)` on the numeric `time` values: for an
integer-valued rational this is the decimal integer string exactly as
Python prints it (`str(0) = "0"`); a non-integer rational is rendered as
`num/den`, an idealization of float repr that no theorem relies on. -/
def pyNumStr (q : ℚ) : String :=
  if q.den = 1 then toString q.num else toString q.num ++ "/" ++ toString q.den

/-- `sum(t['time'] for t in ts)`: left fold of `+` from `0`. -/
def timeSum (ts : List TestRecord) : ℚ :=
  ts.foldl (fun a t => a + t.time) 0

/-- `sum(1 for t in ts if t['status'] == 'failed')`. -/
def countFailed (ts : List TestRecord) : Nat :=
  ts.countP (fun t => t.status == "failed")

/-- The `testcase` element built for one record in `generate_junit_xml`,
with a `failure` child (type `error_type or 'TestFailure'`, message
`message or 'Test failed'`, text only when the message is truthy) for a
failed record and a `skipped` child for a skipped record. -/
def renderTestcase (t : TestRecord) : Xml :=
  Xml.elem "testcase"
    [("classname", t.classname), ("name", t.name), ("time", pyNumStr t.time)]
    none
    (if t.status = "failed" then
      [Xml.elem "failure"
        [("type", pyOrStr t.error_type "TestFailure"),
         ("message", pyOrStr t.message "Test failed")]
        (pyTruthy t.message) []]
    else if t.status = "skipped" then
      [Xml.elem "skipped" [("message", "Test skipped")] none []]
    else [])

/-- Append a record under its key in the suites dict: extend the group of
an existing key, otherwise add a new key at the end (Python dicts keep
insertion order). -/
def insertGrouped (key : String) (t : TestRecord) :
    List (String × List TestRecord) → List (String × List TestRecord)
  | [] => [(key, [t])]
  | (k, ts) :: rest =>
      if k = key then (k, ts ++ [t]) :: rest else (k, ts) :: insertGrouped key t rest

/-- The "Group tests by classname" loop of `generate_junit_xml`. -/
def groupByClassname (ts : List TestRecord) : List (String × List TestRecord) :=
  ts.foldl (fun acc t => insertGrouped t.classname t acc) []

/-- `SwiftTestParser.generate_junit_xml`: the `testsuites` root with its
aggregate attributes and one `testsuite` element per classname group,
each holding its `testcase` elements.  `start_time` is the ISO-rendered
run start time, used identically at the root and at every suite. -/
def generate_junit_xml (results : List TestRecord) (start_time : String) : Xml :=
  Xml.elem "testsuites"
    [("name", "MagSafeGuard Tests"),
     ("tests", toString results.length),
     ("failures", toString (countFailed results)),
     ("errors", "0"),
     ("time", pyNumStr (timeSum results)),
     ("timestamp", start_time)]
    none
    ((groupByClassname results).map (fun g =>
      Xml.elem "testsuite"
        [("name", g.1),
         ("tests", toString g.2.length),
         ("failures", toString (countFailed g.2)),
         ("errors", "0"),
         ("time", pyNumStr (timeSum g.2)),
         ("timestamp", start_time)]
        none
        (g.2.map renderTestcase)))

/-- Terminal events: the three line shapes whose branch appends the open
record to `test_results` (case passed, case failed, skip). -/
def Line.isTerminal : Line → Bool
  | .casePassed _ => true
  | .caseFailed _ => true
  | .skipped => true
  | _ => false

/-- Lines matching the suite-start pattern. -/
def Line.isSuiteStart : Line → Bool
  | .suiteStarted _ => true
  | _ => false

end SwiftTestToJunit

namespace FormatSwiftlintSonar

/-!
Embedding of `src/scripts/format_swiftlint_sonar.py` (`main`), starting
after `json.load` has produced the issues list; file I/O and the
surrounding `try`/`except` wrapper are outside the model.  Each `print`
call is one element of the output line list.
-/

/-- One SwiftLint issue object; `none` models an absent JSON key, so
`dict.get(key, default)` becomes `Option.getD`. -/
structure SwiftLintIssue where
  severity : Option String
  rule_id : Option String
  file : Option String
  line : Option Int
  reason : Option String
deriving DecidableEq, Repr

/-- Whether `sub` occurs contiguously inside `l` (Python's `in` on
strings, on the underlying character lists). -/
def listContains (sub : List Char) : List Char → Bool
  | [] => sub.isEmpty
  | c :: rest => sub.isPrefixOf (c :: rest) || listContains sub rest

/-- The categorization chain of `main`: severity `Error` is a blocker
bug; otherwise a rule id containing `security` or `auth`
(case-insensitively) is a critical hotspot; otherwise a minor smell. -/
def categorize (severity rule_id : String) : String × String :=
  if severity = "Error" then ("BUG", "BLOCKER")
  else if listContains "security".data rule_id.toLower.data
       || listContains "auth".data rule_id.toLower.data then
    ("SECURITY_HOTSPOT", "CRITICAL")
  else ("CODE_SMELL", "MINOR")

/-- The four lines printed for one issue (header, message, rule, blank). -/
def issueLines (issue : SwiftLintIssue) : List String :=
  let severity := issue.severity.getD "Warning"
  let rule_id := issue.rule_id.getD "unknown"
  let c := categorize severity rule_id
  let file_path := issue.file.getD "unknown"
  let line := issue.line.getD 0
  let reason := issue.reason.getD "No description"
  ["[" ++ c.1 ++ "] " ++ c.2 ++ ": " ++ file_path ++ ":" ++ toString line,
   "  Message: " ++ reason,
   "  Rule: " ++ rule_id,
   ""]

/-- The `for i, issue in enumerate(issues[:50])` loop body, applied to an
already-sliced list (the index `i` is never used by the body). -/
def formatIssues : List SwiftLintIssue → List String
  | [] => []
  | i :: rest => issueLines i ++ formatIssues rest

/-- The trailing notice printed when more than 50 issues exist. -/
def moreNotice (n : Nat) : String :=
  "\n... and " ++ toString n ++ " more issues"

/-- Everything `main` prints for a given issues list: the empty-list
message, or the first-50 listing followed by the overflow notice. -/
def mainOutput (issues : List SwiftLintIssue) : List String :=
  if issues.isEmpty then ["No issues found"]
  else
    formatIssues (issues.take 50)
      ++ (if 50 < issues.length then [moreNotice (issues.length - 50)] else [])

end FormatSwiftlintSonar

namespace SwiftTestToJunit

/-- Captured groups of one error-detail line: file, line number, context,
detail. -/
abbrev Detail := String × String × String × String

/-- The failure message `parse_line` stores for an error-detail line:
`<detail> at <file>:<line>`. -/
def detailMessage (p : Detail) : String :=
  p.2.2.2 ++ " at " ++ p.1 ++ ":" ++ p.2.1

/-- The error-detail line with the given captured groups. -/
def errLine (p : Detail) : Line :=
  Line.errorDetail p.1 p.2.1 p.2.2.1 p.2.2.2

/-- Effect of one error-detail line on the open record: overwrite
`error_type` and `message`. -/
def applyDetail (t : TestRecord) (p : Detail) : TestRecord :=
  { t with error_type := some "XCTAssertionFailure", message := some (detailMessage p) }

/-- The open record after a run of error-detail lines: only the most
recent one is retained (none leaves the record unchanged). -/
def withLastDetail (t : TestRecord) (ds : List Detail) : TestRecord :=
  match ds.getLast? with
  | some p => applyDetail t p
  | none => t

/-- Total number of records held across a grouping. -/
def totalLen (gs : List (String × List TestRecord)) : Nat :=
  (gs.map (fun g => g.2.length)).sum

/-- Every skipped record in the list has duration zero. -/
def skippedZero (l : List TestRecord) : Prop :=
  ∀ r ∈ l, r.status = "skipped" → r.time = 0

/-- Reachability invariant of the parser: the open record always has
duration zero and status `"passed"`, and every finalized skipped record
has duration zero. -/
def Pinv (st : ParserState) : Prop :=
  (∀ t, st.current_test = some t → t.time = 0 ∧ t.status = "passed")
  ∧ skippedZero st.test_results

/-- The suite-independent part of the parser state: everything except
`current_suite`. -/
def core (st : ParserState) : List TestRecord × Option TestRecord :=
  (st.test_results, st.current_test)

/-- A parse outcome projected to its suite-independent part. -/
def resCore (r : Except String ParserState) :
    Except String (List TestRecord × Option TestRecord) :=
  r.map core

/-- Final state of the run `[case start, skip]`, used as a concrete
input with a skipped record. -/
def skipRunState : ParserState := ⟨[⟨"A", "b", 0, "skipped", none, none⟩], none, none⟩

/-- The end-to-end example input of the design document: one passing and
one failing case inside suite `Foo`. -/
def endToEndLines : List Line :=
  [Line.suiteStarted "Foo",
   Line.caseStarted "Foo" "testA",
   Line.casePassed "0.01",
   Line.caseStarted "Foo" "testB",
   Line.errorDetail "/p/f.swift" "10" "-[Foo testB]" "XCTAssertTrue failed",
   Line.caseFailed "0.02"]

/-- The parser state the end-to-end example reaches. -/
def endToEndState : ParserState :=
  ⟨[⟨"Foo", "testA", (digitsVal ['0'] : ℚ) + (digitsVal ['0', '1'] : ℚ) / (10 ^ 2), "passed", none, none⟩,
    ⟨"Foo", "testB", (digitsVal ['0'] : ℚ) + (digitsVal ['0', '2'] : ℚ) / (10 ^ 2), "failed",
     some "XCTAssertTrue failed at /p/f.swift:10", some "XCTAssertionFailure"⟩],
   some "Foo", none⟩

end SwiftTestToJunit

namespace SwiftTestToJunit

theorem withLastDetail_cons (t : TestRecord) (p : Detail) (rest : List Detail) :
    withLastDetail (applyDetail t p) rest = withLastDetail t (p :: rest) := by
  cases rest <;> rfl

theorem failedAfterDetails (ds : List Detail) (st : ParserState) (t : TestRecord)
    (h : st.current_test = some t) (secs : String) (q : ℚ) (hq : pyFloat secs = some q) :
    parseLines st (ds.map errLine ++ [Line.caseFailed secs])
      = .ok { st with test_results := st.test_results ++ [{ withLastDetail t ds with time := q, status := "failed" }], current_test := none } := by
  induction ds generalizing st t with
  | nil => simp [parseLines, parse_line, h, hq, withLastDetail]
  | cons p rest ih =>
      have step : parse_line st (errLine p)
          = .ok { st with current_test := some (applyDetail t p) } := by
        simp [parse_line, h, errLine, applyDetail, detailMessage]
      simp only [List.map_cons, List.cons_append, List.append_eq, parseLines, step]
      rw [← withLastDetail_cons]
      exact ih { st with current_test := some (applyDetail t p) } (applyDetail t p) rfl

theorem insertGrouped_totalLen (k : String) (t : TestRecord)
    (acc : List (String × List TestRecord)) :
    totalLen (insertGrouped k t acc) = totalLen acc + 1 := by
  induction acc with
  | nil => simp [insertGrouped, totalLen]
  | cons hd rest ih =>
      obtain ⟨k', ts⟩ := hd
      by_cases hk : k' = k
      · simp [insertGrouped, hk, totalLen]
        omega
      · simp only [insertGrouped, if_neg hk, totalLen, List.map_cons, List.sum_cons] at *
        omega

theorem groupBy_aux (l : List TestRecord) : ∀ acc,
    totalLen (l.foldl (fun acc t => insertGrouped t.classname t acc) acc)
      = totalLen acc + l.length := by
  induction l with
  | nil => intro acc; simp
  | cons t rest ih =>
      intro acc
      simp only [List.foldl_cons, List.length_cons]
      rw [ih, insertGrouped_totalLen]
      omega

theorem groupBy_totalLen (l : List TestRecord) :
    totalLen (groupByClassname l) = l.length := by
  have := groupBy_aux l []
  simpa [groupByClassname, totalLen] using this

theorem skippedZero_append (l : List TestRecord) (t : TestRecord)
    (hl : skippedZero l) (ht : t.status = "skipped" → t.time = 0) :
    skippedZero (l ++ [t]) := by
  intro r hm hs
  rcases List.mem_append.1 hm with hm | hm
  · exact hl r hm hs
  · rcases List.mem_singleton.1 hm with rfl
    exact ht hs

theorem parse_line_inv (st : ParserState) (l : Line) (st' : ParserState)
    (hs : Pinv st) (h : parse_line st l = .ok st') : Pinv st' := by
  obtain ⟨hc, hr⟩ := hs
  cases l with
  | suiteStarted name =>
      simp only [parse_line, Except.ok.injEq] at h
      subst h
      exact ⟨hc, hr⟩
  | caseStarted cn n =>
      simp only [parse_line, Except.ok.injEq] at h
      subst h
      refine ⟨?_, hr⟩
      intro t ht
      simp only [Option.some.injEq] at ht
      subst ht
      exact ⟨rfl, rfl⟩
  | casePassed s =>
      cases hcur : st.current_test with
      | none =>
          simp only [parse_line, hcur, Except.ok.injEq] at h
          subst h
          exact ⟨hc, hr⟩
      | some t =>
          cases hq : pyFloat s with
          | none => simp [parse_line, hcur, hq] at h
          | some q =>
              simp only [parse_line, hcur, hq, Except.ok.injEq] at h
              subst h
              refine ⟨by intro t' ht'; simp at ht', ?_⟩
              refine skippedZero_append _ _ hr ?_
              intro hskip
              have := (hc t hcur).2
              simp only at hskip
              rw [this] at hskip
              exact absurd hskip (by decide)
  | caseFailed s =>
      cases hcur : st.current_test with
      | none =>
          simp only [parse_line, hcur, Except.ok.injEq] at h
          subst h
          exact ⟨hc, hr⟩
      | some t =>
          cases hq : pyFloat s with
          | none => simp [parse_line, hcur, hq] at h
          | some q =>
              simp only [parse_line, hcur, hq, Except.ok.injEq] at h
              subst h
              refine ⟨by intro t' ht'; simp at ht', ?_⟩
              refine skippedZero_append _ _ hr ?_
              intro hskip
              simp only at hskip
              exact absurd hskip (by decide)
  | errorDetail f ln ctx d =>
      cases hcur : st.current_test with
      | none =>
          simp only [parse_line, hcur, Except.ok.injEq] at h
          subst h
          exact ⟨hc, hr⟩
      | some t =>
          simp only [parse_line, hcur, Except.ok.injEq] at h
          subst h
          refine ⟨?_, hr⟩
          intro t' ht'
          simp only [Option.some.injEq] at ht'
          subst ht'
          exact ⟨(hc t hcur).1, (hc t hcur).2⟩
  | skipped =>
      cases hcur : st.current_test with
      | none =>
          simp only [parse_line, hcur, Except.ok.injEq] at h
          subst h
          exact ⟨hc, hr⟩
      | some t =>
          simp only [parse_line, hcur, Except.ok.injEq] at h
          subst h
          refine ⟨by intro t' ht'; simp at ht', ?_⟩
          refine skippedZero_append _ _ hr ?_
          intro _
          exact (hc t hcur).1
  | other raw =>
      simp only [parse_line, Except.ok.injEq] at h
      subst h
      exact ⟨hc, hr⟩

theorem run_inv (ls : List Line) : ∀ st st' : ParserState,
    Pinv st → parseLines st ls = .ok st' → Pinv st' := by
  induction ls with
  | nil =>
      intro st st' hs h
      simp only [parseLines, Except.ok.injEq] at h
      subst h
      exact hs
  | cons l rest ih =>
      intro st st' hs h
      cases hpl : parse_line st l with
      | ok st1 =>
          simp only [parseLines, hpl] at h
          exact ih st1 st' (parse_line_inv st l st1 hs hpl) h
      | error e => simp [parseLines, hpl] at h

theorem timeSum_acc (l : List TestRecord) : ∀ a : ℚ,
    l.foldl (fun s t => s + t.time) a = a + timeSum l := by
  induction l with
  | nil => intro a; simp [timeSum]
  | cons r rest ih =>
      intro a
      simp only [List.foldl_cons, timeSum]
      rw [ih (a + r.time), ih (0 + r.time)]
      ring

theorem timeSum_cons (r : TestRecord) (l : List TestRecord) :
    timeSum (r :: l) = r.time + timeSum l := by
  have h1 : timeSum (r :: l) = l.foldl (fun s t => s + t.time) (0 + r.time) := rfl
  rw [h1, timeSum_acc l (0 + r.time), zero_add]

theorem timeSum_skipped_filter (l : List TestRecord) (h : skippedZero l) :
    timeSum l = timeSum (l.filter (fun r => !(r.status == "skipped"))) := by
  induction l with
  | nil => rfl
  | cons r rest ih =>
      have hrest : skippedZero rest := fun x hx => h x (List.mem_cons_of_mem r hx)
      cases hr : (r.status == "skipped") with
      | true =>
          have h0 : r.time = 0 := h r (List.mem_cons_self r rest) (by simpa using hr)
          simp [List.filter_cons, hr, timeSum_cons, h0, ih hrest]
      | false =>
          simp [List.filter_cons, hr, timeSum_cons, ih hrest]

theorem mem_insertGrouped (k : String) (t r : TestRecord) :
    ∀ (acc : List (String × List TestRecord)) (p : String × List TestRecord),
    p ∈ insertGrouped k t acc → r ∈ p.2 → r = t ∨ ∃ p' ∈ acc, r ∈ p'.2 := by
  intro acc
  induction acc with
  | nil =>
      intro p hp hrp
      simp only [insertGrouped, List.mem_singleton] at hp
      subst hp
      simp only [List.mem_singleton] at hrp
      exact Or.inl hrp
  | cons hd rest ih =>
      obtain ⟨k', ts⟩ := hd
      intro p hp hrp
      by_cases hk : k' = k
      · simp only [insertGrouped, if_pos hk, List.mem_cons] at hp
        rcases hp with hp | hp
        · subst hp
          simp only [List.mem_append, List.mem_singleton] at hrp
          rcases hrp with hrp | hrp
          · exact Or.inr ⟨(k', ts), List.mem_cons_self _ _, hrp⟩
          · exact Or.inl hrp
        · exact Or.inr ⟨p, List.mem_cons_of_mem _ hp, hrp⟩
      · simp only [insertGrouped, if_neg hk, List.mem_cons] at hp
        rcases hp with hp | hp
        · subst hp
          exact Or.inr ⟨(k', ts), List.mem_cons_self _ _, hrp⟩
        · rcases ih p hp hrp with hcase | ⟨p', hp', hrp'⟩
          · exact Or.inl hcase
          · exact Or.inr ⟨p', List.mem_cons_of_mem _ hp', hrp'⟩

theorem mem_groupBy_aux (l : List TestRecord) :
    ∀ (acc : List (String × List TestRecord)) (p : String × List TestRecord)
      (r : TestRecord),
    p ∈ l.foldl (fun acc t => insertGrouped t.classname t acc) acc → r ∈ p.2 →
    r ∈ l ∨ ∃ p' ∈ acc, r ∈ p'.2 := by
  induction l with
  | nil =>
      intro acc p r hp hrp
      exact Or.inr ⟨p, hp, hrp⟩
  | cons t rest ih =>
      intro acc p r hp hrp
      simp only [List.foldl_cons] at hp
      rcases ih (insertGrouped t.classname t acc) p r hp hrp with hmem | ⟨p', hp', hrp'⟩
      · exact Or.inl (List.mem_cons_of_mem t hmem)
      · rcases mem_insertGrouped t.classname t r acc p' hp' hrp' with hcase | ⟨p'', hp'', hrp''⟩
        · rw [hcase]
          exact Or.inl (List.mem_cons_self t rest)
        · exact Or.inr ⟨p'', hp'', hrp''⟩

theorem mem_of_group (l : List TestRecord) (p : String × List TestRecord)
    (r : TestRecord) (hp : p ∈ groupByClassname l) (hrp : r ∈ p.2) : r ∈ l := by
  rcases mem_groupBy_aux l [] p r hp hrp with hmem | ⟨p', hp', _⟩
  · exact hmem
  · simp at hp'

theorem parseLines_core_congr (ls : List Line) : ∀ st₁ st₂ : ParserState,
    core st₁ = core st₂ → resCore (parseLines st₁ ls) = resCore (parseLines st₂ ls) := by
  induction ls with
  | nil =>
      intro st₁ st₂ h
      simp only [parseLines, resCore, Except.map]
      rw [h]
  | cons l rest ih =>
      intro st₁ st₂ h
      have hres : st₁.test_results = st₂.test_results := congrArg Prod.fst h
      have hcur : st₁.current_test = st₂.current_test := congrArg Prod.snd h
      cases l with
      | suiteStarted n =>
          simp only [parseLines, parse_line]
          exact ih _ _ (by simp [core, hres, hcur])
      | caseStarted cn nm =>
          simp only [parseLines, parse_line]
          exact ih _ _ (by simp [core, hres])
      | casePassed s =>
          cases hc : st₁.current_test with
          | none =>
              have hc₂ : st₂.current_test = none := hcur.symm.trans hc
              simp only [parseLines, parse_line, hc, hc₂]
              exact ih _ _ h
          | some t =>
              have hc₂ : st₂.current_test = some t := hcur.symm.trans hc
              cases hq : pyFloat s with
              | none => simp only [parseLines, parse_line, hc, hc₂, hq, resCore]
              | some q =>
                  simp only [parseLines, parse_line, hc, hc₂, hq]
                  exact ih _ _ (by simp [core, hres])
      | caseFailed s =>
          cases hc : st₁.current_test with
          | none =>
              have hc₂ : st₂.current_test = none := hcur.symm.trans hc
              simp only [parseLines, parse_line, hc, hc₂]
              exact ih _ _ h
          | some t =>
              have hc₂ : st₂.current_test = some t := hcur.symm.trans hc
              cases hq : pyFloat s with
              | none => simp only [parseLines, parse_line, hc, hc₂, hq, resCore]
              | some q =>
                  simp only [parseLines, parse_line, hc, hc₂, hq]
                  exact ih _ _ (by simp [core, hres])
      | errorDetail f ln ctx d =>
          cases hc : st₁.current_test with
          | none =>
              have hc₂ : st₂.current_test = none := hcur.symm.trans hc
              simp only [parseLines, parse_line, hc, hc₂]
              exact ih _ _ h
          | some t =>
              have hc₂ : st₂.current_test = some t := hcur.symm.trans hc
              simp only [parseLines, parse_line, hc, hc₂]
              exact ih _ _ (by simp [core, hres])
      | skipped =>
          cases hc : st₁.current_test with
          | none =>
              have hc₂ : st₂.current_test = none := hcur.symm.trans hc
              simp only [parseLines, parse_line, hc, hc₂]
              exact ih _ _ h
          | some t =>
              have hc₂ : st₂.current_test = some t := hcur.symm.trans hc
              simp only [parseLines, parse_line, hc, hc₂]
              exact ih _ _ (by simp [core, hres])
      | other raw =>
          simp only [parseLines, parse_line]
          exact ih _ _ h

theorem parseLines_filter_suites (ls : List Line) : ∀ st : ParserState,
    resCore (parseLines st ls)
      = resCore (parseLines st (ls.filter (fun l => !l.isSuiteStart))) := by
  induction ls with
  | nil => intro st; rfl
  | cons l rest ih =>
      intro st
      by_cases hsuite : l.isSuiteStart = true
      · obtain ⟨n, rfl⟩ : ∃ n, l = Line.suiteStarted n := by
          cases l <;> first | exact ⟨_, rfl⟩ | simp [Line.isSuiteStart] at hsuite
        have hstep : parseLines st (Line.suiteStarted n :: rest)
            = parseLines { st with current_suite := some n } rest := rfl
        have hfil : (Line.suiteStarted n :: rest).filter (fun l => !l.isSuiteStart)
            = rest.filter (fun l => !l.isSuiteStart) := by
          simp [Line.isSuiteStart]
        rw [hstep, hfil, ih { st with current_suite := some n }]
        exact parseLines_core_congr _ _ _ rfl
      · have hfil : (l :: rest).filter (fun x => !x.isSuiteStart)
            = l :: rest.filter (fun x => !x.isSuiteStart) := by
          simp only [List.filter_cons]
          simp [hsuite]
        rw [hfil]
        simp only [parseLines]
        cases hpl : parse_line st l with
        | ok st1 => exact ih st1
        | error e => rfl

theorem parse_line_results_le (st : ParserState) (l : Line) (st' : ParserState)
    (h : parse_line st l = .ok st') :
    st'.test_results.length ≤ st.test_results.length + (if l.isTerminal then 1 else 0) := by
  cases l with
  | suiteStarted name =>
      simp only [parse_line, Except.ok.injEq] at h
      subst h
      simp [Line.isTerminal]
  | caseStarted cn n =>
      simp only [parse_line, Except.ok.injEq] at h
      subst h
      simp [Line.isTerminal]
  | casePassed s =>
      cases hc : st.current_test with
      | none =>
          simp only [parse_line, hc, Except.ok.injEq] at h
          subst h
          simp [Line.isTerminal]
      | some t =>
          cases hq : pyFloat s with
          | none => simp [parse_line, hc, hq] at h
          | some q =>
              simp only [parse_line, hc, hq, Except.ok.injEq] at h
              subst h
              simp [Line.isTerminal]
  | caseFailed s =>
      cases hc : st.current_test with
      | none =>
          simp only [parse_line, hc, Except.ok.injEq] at h
          subst h
          simp [Line.isTerminal]
      | some t =>
          cases hq : pyFloat s with
          | none => simp [parse_line, hc, hq] at h
          | some q =>
              simp only [parse_line, hc, hq, Except.ok.injEq] at h
              subst h
              simp [Line.isTerminal]
  | errorDetail f ln ctx d =>
      cases hc : st.current_test with
      | none =>
          simp only [parse_line, hc, Except.ok.injEq] at h
          subst h
          simp [Line.isTerminal]
      | some t =>
          simp only [parse_line, hc, Except.ok.injEq] at h
          subst h
          simp [Line.isTerminal]
  | skipped =>
      cases hc : st.current_test with
      | none =>
          simp only [parse_line, hc, Except.ok.injEq] at h
          subst h
          simp [Line.isTerminal]
      | some t =>
          simp only [parse_line, hc, Except.ok.injEq] at h
          subst h
          simp [Line.isTerminal]
  | other raw =>
      simp only [parse_line, Except.ok.injEq] at h
      subst h
      simp [Line.isTerminal]

theorem parseLines_results_le (ls : List Line) : ∀ st st' : ParserState,
    parseLines st ls = .ok st' →
    st'.test_results.length
      ≤ st.test_results.length + ls.countP (fun l => l.isTerminal) := by
  induction ls with
  | nil =>
      intro st st' h
      simp only [parseLines, Except.ok.injEq] at h
      subst h
      simp
  | cons l rest ih =>
      intro st st' h
      cases hpl : parse_line st l with
      | ok st1 =>
          simp only [parseLines, hpl] at h
          have h1 := parse_line_results_le st l st1 hpl
          have h2 := ih st1 st' h
          rw [List.countP_cons]
          by_cases hterm : l.isTerminal = true
          · simp only [hterm, if_true] at h1 ⊢
            omega
          · simp only [Bool.not_eq_true] at hterm
            simp only [hterm, if_false] at h1 ⊢
            omega
      | error e => simp [parseLines, hpl] at h

end SwiftTestToJunit

namespace SwiftTestToJunit

/-- C1: from any parser state, a case-start line immediately followed by
a case-passed line whose seconds payload parses to `q` finalizes exactly
one new record, with status `"passed"` and duration `q`, and leaves no
case open (`current_test = none`); the rest of the state is untouched. -/
theorem claim_C1_start_then_passed (st : ParserState) (cn n secs : String) (q : ℚ)
    (h : pyFloat secs = some q) :
    parseLines st [Line.caseStarted cn n, Line.casePassed secs]
      = .ok { st with test_results := st.test_results ++ [{ freshTest cn n with time := q }],
                      current_test := none } := by
  simp [parseLines, parse_line, h]

theorem claim_C1_start_then_passed_witness :
    pyFloat "7" = some ((7 : Nat) : ℚ)
    ∧ parseLines initState [Line.caseStarted "Foo" "testA", Line.casePassed "7"]
        = .ok ⟨[⟨"Foo", "testA", ((7 : Nat) : ℚ), "passed", none, none⟩], none, none⟩ :=
  ⟨rfl, claim_C1_start_then_passed initState "Foo" "testA" "7" ((7 : Nat) : ℚ) rfl⟩

/-- C2, counterexample to the claim as stated: the program stores the
failure kind `"XCTAssertionFailure"` (source line 60), not
`"AssertionFailure"`; processing one concrete error-detail line while a
case is open yields a record whose `error_type` is
`some "XCTAssertionFailure"`, which differs from
`some "AssertionFailure"`. -/
theorem claim_C2_failure_kind_counterexample :
    parse_line ⟨[], none, some (freshTest "Foo" "testB")⟩
        (Line.errorDetail "f.swift" "10" "ctx" "boom")
      = .ok ⟨[], none, some ⟨"Foo", "testB", 0, "passed", some "boom at f.swift:10",
            some "XCTAssertionFailure"⟩⟩
    ∧ (some "XCTAssertionFailure" : Option String) ≠ some "AssertionFailure" :=
  ⟨rfl, by decide⟩

/-- C2 as amended (the failure kind is `"XCTAssertionFailure"`, the
string the code actually stores, instead of the claim's
`"AssertionFailure"`): while a case is open, an error-detail line sets
`error_type = "XCTAssertionFailure"` and
`message = "<detail> at <file>:<line>"` on the open record without
finalizing it (`test_results` untouched); and after any number of
error-detail lines (zero or more), a case-failed line finalizes the
record with status `"failed"`, retaining only the most recent
error-detail message. -/
theorem claim_C2_error_detail_retention (st : ParserState) (t : TestRecord)
    (h : st.current_test = some t) :
    (∀ f ln ctx d, parse_line st (Line.errorDetail f ln ctx d)
        = .ok { st with current_test := some { t with error_type := some "XCTAssertionFailure", message := some (d ++ " at " ++ f ++ ":" ++ ln) } })
    ∧ ∀ (ds : List Detail) (secs : String) (q : ℚ), pyFloat secs = some q →
        parseLines st (ds.map errLine ++ [Line.caseFailed secs])
          = .ok { st with test_results := st.test_results ++ [{ withLastDetail t ds with time := q, status := "failed" }], current_test := none } := by
  constructor
  · intro f ln ctx d
    simp [parse_line, h]
  · intro ds secs q hq
    exact failedAfterDetails ds st t h secs q hq

theorem claim_C2_error_detail_retention_witness :
    (⟨[], none, some (freshTest "Foo" "testB")⟩ : ParserState).current_test
        = some (freshTest "Foo" "testB")
    ∧ parseLines ⟨[], none, some (freshTest "Foo" "testB")⟩
        ([errLine ("f.swift", "10", "ctx", "first"),
          errLine ("f.swift", "11", "ctx", "second"), Line.caseFailed "7"])
      = .ok ⟨[⟨"Foo", "testB", ((7 : Nat) : ℚ), "failed",
              some "second at f.swift:11", some "XCTAssertionFailure"⟩], none, none⟩ :=
  ⟨rfl, (claim_C2_error_detail_retention ⟨[], none, some (freshTest "Foo" "testB")⟩
      (freshTest "Foo" "testB") rfl).2
      [("f.swift", "10", "ctx", "first"), ("f.swift", "11", "ctx", "second")]
      "7" ((7 : Nat) : ℚ) rfl⟩

/-- C3: for every successfully parsed input, the per-suite `tests`
attributes in the rendered document are the decimal renderings of a list
of counts whose sum is rendered as the root `tests` attribute. -/
theorem claim_C3_suite_tests_sum (ls : List Line) (st : ParserState) (ts : String)
    (h : parseRun ls = .ok st) :
    ∃ counts : List Nat,
      ((generate_junit_xml st.test_results ts).children.map (fun c => c.attr "tests"))
        = counts.map (fun n => some (toString n))
      ∧ (generate_junit_xml st.test_results ts).attr "tests"
        = some (toString counts.sum) := by
  refine ⟨(groupByClassname st.test_results).map (fun g => g.2.length), ?_, ?_⟩
  · simp [generate_junit_xml, Xml.children, Xml.attr, List.map_map, List.find?]
  · have hroot : (generate_junit_xml st.test_results ts).attr "tests"
        = some (toString st.test_results.length) := rfl
    rw [hroot, ← groupBy_totalLen st.test_results]
    rfl

theorem claim_C3_suite_tests_sum_witness :
    parseRun endToEndLines = .ok endToEndState
    ∧ ∃ counts : List Nat,
        ((generate_junit_xml endToEndState.test_results "ts0").children.map
            (fun c => c.attr "tests"))
          = counts.map (fun n => some (toString n))
        ∧ (generate_junit_xml endToEndState.test_results "ts0").attr "tests"
          = some (toString counts.sum) :=
  ⟨rfl, claim_C3_suite_tests_sum endToEndLines endToEndState "ts0" rfl⟩

/-- C4: in every successful parse run, the number of finalized records
never exceeds the number of terminal-event lines (records are only ever
finalized by an explicit terminal event), so an input with no terminal
event, such as a lone case-start line, yields an empty `test_results`. -/
theorem claim_C4_records_need_terminal (ls : List Line) (st : ParserState)
    (h : parseRun ls = .ok st) :
    st.test_results.length ≤ ls.countP (fun l => l.isTerminal)
    ∧ ((∀ l ∈ ls, l.isTerminal = false) → st.test_results = []) := by
  have hle := parseLines_results_le ls initState st h
  simp only [initState, List.length_nil, Nat.zero_add] at hle
  refine ⟨hle, ?_⟩
  intro hall
  have hz : ls.countP (fun l => l.isTerminal) = 0 := by
    rw [List.countP_eq_zero]
    intro l hl
    simp [hall l hl]
  rw [hz] at hle
  exact List.length_eq_zero.1 (Nat.le_zero.1 hle)

theorem claim_C4_records_need_terminal_witness :
    parseRun [Line.caseStarted "A" "b"] = .ok ⟨[], none, some (freshTest "A" "b")⟩
    ∧ ((⟨[], none, some (freshTest "A" "b")⟩ : ParserState).test_results.length
          ≤ [Line.caseStarted "A" "b"].countP (fun l => l.isTerminal)
       ∧ ((∀ l ∈ [Line.caseStarted "A" "b"], l.isTerminal = false) →
          (⟨[], none, some (freshTest "A" "b")⟩ : ParserState).test_results = [])) :=
  ⟨rfl, claim_C4_records_need_terminal [Line.caseStarted "A" "b"]
      ⟨[], none, some (freshTest "A" "b")⟩ rfl⟩

/-- C5: a case-start line arriving while a case is already open replaces
the open record with a fresh one (status `"passed"`, duration `0`, no
message) and leaves `test_results` untouched, so the discarded record is
never finalized. -/
theorem claim_C5_case_start_discards_open (st : ParserState) (t : TestRecord)
    (cn n : String) (h : st.current_test = some t) :
    parse_line st (Line.caseStarted cn n)
      = .ok { st with current_test := some (freshTest cn n) } := rfl

theorem claim_C5_case_start_discards_open_witness :
    (⟨[], none, some (freshTest "Old" "caseA")⟩ : ParserState).current_test
        = some (freshTest "Old" "caseA")
    ∧ parse_line ⟨[], none, some (freshTest "Old" "caseA")⟩ (Line.caseStarted "New" "caseB")
        = .ok ⟨[], none, some (freshTest "New" "caseB")⟩ :=
  ⟨rfl, claim_C5_case_start_discards_open ⟨[], none, some (freshTest "Old" "caseA")⟩
      (freshTest "Old" "caseA") "New" "caseB" rfl⟩

/-- C6: a line matching none of the six recognized patterns leaves the
whole parser state (suite, open case, results) unchanged. -/
theorem claim_C6_unrecognized_line_noop (st : ParserState) (raw : String) :
    parse_line st (Line.other raw) = .ok st := rfl

/-- C7: while a case is open, a case-passed or case-failed line whose
seconds payload does not parse as a number makes the parse run fail with
the conversion error instead of using any default duration. -/
theorem claim_C7_malformed_seconds_fatal (st : ParserState) (t : TestRecord)
    (secs : String) (h : st.current_test = some t) (hb : pyFloat secs = none) :
    parse_line st (Line.casePassed secs)
        = .error ("could not convert string to float: " ++ secs)
    ∧ parse_line st (Line.caseFailed secs)
        = .error ("could not convert string to float: " ++ secs) := by
  constructor <;> simp [parse_line, h, hb]

theorem claim_C7_malformed_seconds_fatal_witness :
    pyFloat "abc" = none
    ∧ parse_line ⟨[], none, some (freshTest "A" "b")⟩ (Line.casePassed "abc")
        = .error "could not convert string to float: abc"
    ∧ parse_line ⟨[], none, some (freshTest "A" "b")⟩ (Line.caseFailed "abc")
        = .error "could not convert string to float: abc" := by
  refine ⟨rfl, ?_⟩
  exact claim_C7_malformed_seconds_fatal ⟨[], none, some (freshTest "A" "b")⟩
      (freshTest "A" "b") "abc" rfl rfl

/-- C9: two inputs that agree after erasing all suite-start lines produce
the same parse outcome up to `current_suite` and hence exactly the same
rendered JUnit document for the same run start time: the captured suite
name is never read when building the document. -/
theorem claim_C9_suite_lines_immaterial (ls₁ ls₂ : List Line) (ts : String)
    (h : ls₁.filter (fun l => !l.isSuiteStart) = ls₂.filter (fun l => !l.isSuiteStart)) :
    (parseRun ls₁).map (fun st => generate_junit_xml st.test_results ts)
      = (parseRun ls₂).map (fun st => generate_junit_xml st.test_results ts) := by
  have key : resCore (parseRun ls₁) = resCore (parseRun ls₂) := by
    unfold parseRun
    rw [parseLines_filter_suites ls₁ initState, parseLines_filter_suites ls₂ initState, h]
  cases h₁ : parseRun ls₁ with
  | ok st₁ =>
      cases h₂ : parseRun ls₂ with
      | ok st₂ =>
          rw [h₁, h₂] at key
          simp only [resCore, Except.map, Except.ok.injEq] at key
          have hres : st₁.test_results = st₂.test_results := congrArg Prod.fst key
          simp [Except.map, hres]
      | error e =>
          rw [h₁, h₂] at key
          simp [resCore, Except.map] at key
  | error e =>
      cases h₂ : parseRun ls₂ with
      | ok st₂ =>
          rw [h₁, h₂] at key
          simp [resCore, Except.map] at key
      | error e₂ =>
          rw [h₁, h₂] at key
          simp only [resCore, Except.map, Except.error.injEq] at key
          simp [Except.map, key]

theorem claim_C9_suite_lines_immaterial_witness :
    [Line.suiteStarted "S", Line.caseStarted "A" "b"].filter (fun l => !l.isSuiteStart)
        = [Line.caseStarted "A" "b"].filter (fun l => !l.isSuiteStart)
    ∧ (parseRun [Line.suiteStarted "S", Line.caseStarted "A" "b"]).map
          (fun st => generate_junit_xml st.test_results "ts0")
        = (parseRun [Line.caseStarted "A" "b"]).map
          (fun st => generate_junit_xml st.test_results "ts0") :=
  ⟨rfl, claim_C9_suite_lines_immaterial _ _ "ts0" rfl⟩

/-- C10: in every successful parse run, each record finalized as skipped
has duration `0`, its `testcase` element renders `time="0"`, and skipped
records contribute nothing to the root-level or any suite-level time
sum. -/
theorem claim_C10_skipped_zero_time (ls : List Line) (st : ParserState)
    (h : parseRun ls = .ok st) :
    (∀ r ∈ st.test_results, r.status = "skipped" →
        r.time = 0 ∧ (renderTestcase r).attr "time" = some "0")
    ∧ timeSum st.test_results
        = timeSum (st.test_results.filter (fun r => !(r.status == "skipped")))
    ∧ ∀ g ∈ groupByClassname st.test_results,
        timeSum g.2 = timeSum (g.2.filter (fun r => !(r.status == "skipped"))) := by
  have hinit : Pinv initState := by
    refine ⟨?_, ?_⟩
    · intro t ht
      simp [initState] at ht
    · intro r hm
      simp [initState] at hm
  have hinv : Pinv st := run_inv ls initState st hinit h
  obtain ⟨-, hr⟩ := hinv
  refine ⟨?_, ?_, ?_⟩
  · intro r hm hskip
    have h0 := hr r hm hskip
    refine ⟨h0, ?_⟩
    have hattr : (renderTestcase r).attr "time" = some (pyNumStr r.time) := rfl
    rw [hattr, h0]
    rfl
  · exact timeSum_skipped_filter _ hr
  · intro g hg
    exact timeSum_skipped_filter _ (fun r hm hs => hr r (mem_of_group _ g r hg hm) hs)

theorem claim_C10_skipped_zero_time_witness :
    parseRun [Line.caseStarted "A" "b", Line.skipped] = .ok skipRunState
    ∧ ((∀ r ∈ skipRunState.test_results, r.status = "skipped" →
          r.time = 0 ∧ (renderTestcase r).attr "time" = some "0")
       ∧ timeSum skipRunState.test_results
           = timeSum (skipRunState.test_results.filter (fun r => !(r.status == "skipped")))
       ∧ ∀ g ∈ groupByClassname skipRunState.test_results,
           timeSum g.2 = timeSum (g.2.filter (fun r => !(r.status == "skipped")))) :=
  ⟨rfl, claim_C10_skipped_zero_time [Line.caseStarted "A" "b", Line.skipped] skipRunState rfl⟩

end SwiftTestToJunit

namespace FormatSwiftlintSonar

theorem formatIssues_eq (l : List SwiftLintIssue) :
    formatIssues l = l.flatMap issueLines := by
  induction l with
  | nil => rfl
  | cons i rest ih => simp [formatIssues, ih]

/-- C8: for a nonempty issues list, the console output is exactly the
per-issue blocks of the first at most 50 issues in list order, followed
by the `... and N more issues` notice with `N = length - 50` exactly when
more than 50 issues exist; with 50 or fewer issues every issue is listed
and no notice is printed. -/
theorem claim_C8_console_cap_50 (issues : List SwiftLintIssue) (h : issues ≠ []) :
    mainOutput issues
      = (issues.take 50).flatMap issueLines
        ++ (if 50 < issues.length then [moreNotice (issues.length - 50)] else [])
    ∧ (issues.length ≤ 50 → mainOutput issues = issues.flatMap issueLines) := by
  have hne : issues.isEmpty = false := by
    cases issues with
    | nil => exact absurd rfl h
    | cons a as => rfl
  constructor
  · simp [mainOutput, hne, formatIssues_eq]
  · intro hle
    have hnot : ¬ (50 < issues.length) := by omega
    simp [mainOutput, hne, formatIssues_eq, hnot, List.take_of_length_le hle]

theorem claim_C8_console_cap_50_witness :
    ([⟨none, none, none, none, none⟩] : List SwiftLintIssue) ≠ []
    ∧ (mainOutput [⟨none, none, none, none, none⟩]
        = (([⟨none, none, none, none, none⟩] : List SwiftLintIssue).take 50).flatMap issueLines
          ++ (if 50 < ([⟨none, none, none, none, none⟩] : List SwiftLintIssue).length then
                [moreNotice (([⟨none, none, none, none, none⟩] : List SwiftLintIssue).length - 50)]
              else [])
       ∧ (([⟨none, none, none, none, none⟩] : List SwiftLintIssue).length ≤ 50 →
          mainOutput [⟨none, none, none, none, none⟩]
            = ([⟨none, none, none, none, none⟩] : List SwiftLintIssue).flatMap issueLines)) :=
  ⟨List.cons_ne_nil _ _,
   claim_C8_console_cap_50 [⟨none, none, none, none, none⟩] (List.cons_ne_nil _ _)⟩

end FormatSwiftlintSonar
